import Mathlib

/-!
Verification development for the Social Saver Bot content-extraction
subsystem.  Python strings are modelled as `List Char` (sequences of
Unicode scalar values); machine effects (HTTP fetch, the Twitter oEmbed
endpoint) are modelled by an oracle environment `Env`; Python exceptions
that can escape the extractor are modelled with `Except PyExc`.
-/

namespace SocialSaver

/-- A Python string: a sequence of Unicode code points. -/
abbrev Str := List Char

/-- Whitespace as used by Python `str.split()` / `str.strip()`,
restricted to the ASCII whitespace characters. -/
def isSpaceChar (c : Char) : Bool :=
  c == ' ' || c == '\t' || c == '\n' || c == '\r' || c == '\x0b' || c == '\x0c'

/-- Word characters, modelling the regex class `\w` (restricted to the
ASCII range: letters, digits and underscore). -/
def isWordChar (c : Char) : Bool :=
  c.isAlphanum || c == '_'

/-- Python substring containment `pat in s` (`s.__contains__ pat`). -/
def strContains (s pat : Str) : Bool :=
  match s with
  | [] => pat.isEmpty
  | _ :: rest => pat.isPrefixOf s || strContains rest pat

/-- Python `str.lower()`, modelled character-wise on the ASCII range. -/
def pyLower (s : Str) : Str := s.map Char.toLower

/-- `Config.PLATFORM_PATTERNS` (src/config.py lines 52-62), an ordered
table: Python dicts iterate in insertion order. -/
def PLATFORM_PATTERNS : List (Str × List Str) :=
  [ ("instagram".toList, ["instagram.com".toList, "instagr.am".toList]),
    ("twitter".toList,   ["twitter.com".toList, "x.com".toList]),
    ("facebook".toList,  ["facebook.com".toList, "fb.com".toList]),
    ("youtube".toList,   ["youtube.com".toList, "youtu.be".toList]),
    ("tiktok".toList,    ["tiktok.com".toList]),
    ("linkedin".toList,  ["linkedin.com".toList]),
    ("reddit".toList,    ["reddit.com".toList, "redd.it".toList]),
    ("pinterest".toList, ["pinterest.com".toList, "pin.it".toList]),
    ("blog".toList,      []) ]

/-- The scanning loop of `detect_platform`: first platform in table
order one of whose patterns occurs in the (lowered) url wins. -/
def detectGo (table : List (Str × List Str)) (u : Str) : Str :=
  match table with
  | [] => "blog".toList
  | (p, pats) :: rest =>
      if pats.any (fun pat => strContains u pat) then p else detectGo rest u

/-- `detect_platform` (src/config.py lines 317-323). -/
def detect_platform (url : Str) : Str :=
  detectGo PLATFORM_PATTERNS (pyLower url)

/-- Characters allowed in a URL scheme by `urllib.parse`
(`scheme_chars`): letters, digits, `+`, `-`, `.`. -/
def isSchemeChar (c : Char) : Bool :=
  c.isAlphanum || c == '+' || c == '-' || c == '.'

/-- Scheme splitting of `urllib.parse.urlparse`: if the input contains a
`:` at position `i > 0`, the first character is an ASCII letter, and all
characters before the `:` are scheme characters, the scheme is that
(lowered) segment and the remainder follows the `:`; otherwise the
scheme is empty and the remainder is the whole input. -/
def splitScheme (url : Str) : Str × Str :=
  let pre := url.takeWhile (fun c => c != ':')
  if pre.length < url.length && !pre.isEmpty &&
      (match url with | c :: _ => c.isAlpha | [] => false) &&
      pre.all isSchemeChar then
    (pyLower pre, url.drop (pre.length + 1))
  else
    ([], url)

/-- Netloc extraction of `urllib.parse.urlparse`: present only when the
post-scheme remainder starts with `//`; extends to the first `/`, `?`
or `#`. -/
def splitNetloc (rest : Str) : Str :=
  if ("//".toList).isPrefixOf rest then
    (rest.drop 2).takeWhile (fun c => !(c == '/' || c == '?' || c == '#'))
  else
    []

/-- `is_valid_url` (src/config.py lines 326-332): both scheme and netloc
parsed by `urlparse` must be non-empty (Python string truthiness). -/
def is_valid_url (url : Str) : Bool :=
  let (scheme, rest) := splitScheme url
  !scheme.isEmpty && !(splitNetloc rest).isEmpty

/-- Python exceptions that can escape the extractor: `KeyError` from a
`tag['content']` lookup on a tag without that attribute, and the
`NameError`/`UnboundLocalError` from `extract_with_retry`'s final
`return result` when the loop body never ran. -/
inductive PyExc where
  | keyError
  | nameError
deriving DecidableEq

/-- The result dictionary produced by the extractor.  Each `Option`
field models presence/absence of the corresponding dict key; `success`
is present in every result the code builds. -/
structure ExtractionResult where
  success : Bool
  platform : Option Str := none
  url : Option Str := none
  title : Option Str := none
  caption : Option Str := none
  image_url : Option Str := none
  author : Option Str := none
  media_type : Option Str := none
  video_id : Option Str := none
  error : Option Str := none
deriving DecidableEq

/-- A parsed page as the extractor queries it.  Each
`Option (Option Str)` field is a `soup.find` outcome: outer `none` =
tag not found, `some none` = tag found but without its `content`
attribute (resp. with `.string` equal to `None` for `titleTag`),
`some (some s)` = tag found with that attribute/string.
`sharedData` abstracts the outcome of the Instagram
`window._sharedData` script parse (which the code wraps in a
catch-all `try`): `none` = script absent or any parse step failed,
`some (cap?, user)` = the caption-text lookup (with its `.get`
defaults) and the owner-username lookup succeeded.
`initialStateScript` is the `.string` of a `window.__INITIAL_STATE__`
script tag, when such a tag with a non-empty string exists.
`articleParas` is the list of `get_text(strip=True)` contents of the
`<p>` children of the first `<article>` (else `<main>`) element. -/
structure Soup where
  ogTitle : Option (Option Str) := none
  ogDescription : Option (Option Str) := none
  ogImage : Option (Option Str) := none
  metaNameDescription : Option (Option Str) := none
  metaNameAuthor : Option (Option Str) := none
  titleTag : Option (Option Str) := none
  sharedData : Option (Option Str × Str) := none
  initialStateScript : Option Str := none
  articleParas : Option (List Str) := none
deriving DecidableEq

/-- The Twitter oEmbed response after `.get('html','')` and
`.get('author_name','')` defaulting. -/
structure OEmbed where
  html : Str := []
  author_name : Str := []
deriving DecidableEq

deriving instance DecidableEq for Except

/-- The effect oracle: `fetch url` is the outcome of
`_make_request(url)` (`none` = transport error / non-2xx, converted to
`None` by the code); `oembed url` is the outcome of the Twitter oEmbed
GET (`none` = non-200 status or any exception inside the `try`). -/
structure Env where
  fetch : Str → Option Soup
  oembed : Str → Option OEmbed

/-- `tag['content'] if tag else default`: a found tag without the
attribute raises `KeyError` (BeautifulSoup tags are always truthy). -/
def contentOrElse (t : Option (Option Str)) (d : Str) : Except PyExc Str :=
  match t with
  | none => .ok d
  | some none => .error .keyError
  | some (some s) => .ok s

/-- `tag.get('content','')` guarded by `if tag:`. -/
def contentGet (t : Option (Option Str)) : Str :=
  match t with
  | some (some s) => s
  | _ => []

/-! ## Text normalizer (src/content_extractor.py lines 71-106)

The regex substitutions are modelled as structural left-to-right
scanners equivalent to a single `re.sub(..., '', text)` pass. -/

/-- Scanner for `re.sub(r'X\w+', '', text)` where `X` is the marker
character (`#` or `@`).  The flag records whether the scanner is
inside a word-run being deleted. -/
def subMarkerGo (m : Char) : Str → Bool → Str
  | [], _ => []
  | c :: rest, true =>
      if isWordChar c then subMarkerGo m rest true
      else if c == m && (match rest with | d :: _ => isWordChar d | [] => false) then
        subMarkerGo m rest true
      else c :: subMarkerGo m rest false
  | c :: rest, false =>
      if c == m && (match rest with | d :: _ => isWordChar d | [] => false) then
        subMarkerGo m rest true
      else c :: subMarkerGo m rest false

/-- `re.sub(r'#\w+', '', ·)` resp. `re.sub(r'@\w+', '', ·)`. -/
def subMarker (m : Char) (l : Str) : Str := subMarkerGo m l false

/-- Membership in the emoji code-point ranges removed by
`_clean_instagram_title`'s `emoji_pattern`. -/
def isEmojiChar (c : Char) : Bool :=
  (0x1F600 ≤ c.toNat && c.toNat ≤ 0x1F64F) ||
  (0x1F300 ≤ c.toNat && c.toNat ≤ 0x1F5FF) ||
  (0x1F680 ≤ c.toNat && c.toNat ≤ 0x1F6FF) ||
  (0x1F1E0 ≤ c.toNat && c.toNat ≤ 0x1F1FF) ||
  (0x2702 ≤ c.toNat && c.toNat ≤ 0x27B0) ||
  (0x24C2 ≤ c.toNat && c.toNat ≤ 0x1F251)

/-- `emoji_pattern.sub('', ·)`: removing every run of emoji characters
equals removing every emoji character. -/
def stripEmoji (l : Str) : Str := l.filter (fun c => !isEmojiChar c)

/-- Scanner for `re.sub(r'\.{2,}', '', ·)`.  The flag records whether
the scanner is inside a dot-run being deleted. -/
def subDotsGo : Str → Bool → Str
  | [], _ => []
  | c :: rest, true =>
      if c == '.' then subDotsGo rest true
      else c :: subDotsGo rest false
  | c :: rest, false =>
      if c == '.' && (match rest with | d :: _ => d == '.' | [] => false) then
        subDotsGo rest true
      else c :: subDotsGo rest false

/-- `re.sub(r'\.{2,}', '', ·)`: removes every maximal run of two or
more periods. -/
def subDots (l : Str) : Str := subDotsGo l false

/-- Right fold computing whitespace collapse: every whitespace run
becomes a single space, trailing whitespace is dropped.  (Leading
whitespace is handled by `normWs`.) -/
def nwR : Str → Str
  | [] => []
  | c :: rest =>
      if isSpaceChar c then
        match nwR rest with
        | [] => []
        | d :: r => if d == ' ' then d :: r else ' ' :: d :: r
      else c :: nwR rest

/-- `' '.join(text.split())`: collapse whitespace runs to single
spaces and trim both ends. -/
def normWs (l : Str) : Str := (nwR l).dropWhile isSpaceChar

/-- `str.strip()`: remove leading and trailing whitespace. -/
def pyStrip (l : Str) : Str :=
  ((l.dropWhile isSpaceChar).reverse.dropWhile isSpaceChar).reverse

/-- The cleaning pipeline of `_clean_instagram_title` (lines 79-97),
called `strip_social_noise` by the specification: strip `#\w+`
hashtags, then `@\w+` mentions, then emoji ranges, then runs of 2+
periods, then collapse whitespace. -/
def strip_social_noise (caption : Str) : Str :=
  normWs (subDots (stripEmoji (subMarker '@' (subMarker '#' caption))))

/-- The final fallback of `_clean_instagram_title`:
`text[:60].strip() if text else 'Instagram Post'`. -/
def titleLastResort (text : Str) : Str :=
  if text.isEmpty then "Instagram Post".toList else pyStrip (text.take 60)

/-- `_clean_instagram_title` (src/content_extractor.py lines 71-106),
called `derive_short_title` by the specification. -/
def clean_instagram_title (caption : Str) : Str :=
  if caption.isEmpty then "Instagram Post".toList
  else
    let text := strip_social_noise caption
    if text.contains '.' then
      let firstSentence := text.takeWhile (fun c => c != '.')
      if firstSentence.length ≤ 60 then pyStrip firstSentence ++ ['.']
      else titleLastResort text
    else titleLastResort text

/-! ## Twitter helpers (src/content_extractor.py lines 152-252) -/

/-- `re.sub(r'<[^>]+>', '', ·)`: remove HTML tags.  A `<` with at least
one following non-`>` character and a closing `>` is removed together
with the span; otherwise the `<` is kept and scanning resumes after
it. -/
def stripTags : Str → Str
  | [] => []
  | c :: rest =>
      if c == '<' && !(rest.takeWhile (fun d => d != '>')).isEmpty &&
          !(rest.dropWhile (fun d => d != '>')).isEmpty then
        stripTags ((rest.dropWhile (fun d => d != '>')).drop 1)
      else c :: stripTags rest
termination_by l => l.length
decreasing_by
  · have h := (List.dropWhile_sublist (l := rest) (fun d => d != '>')).length_le
    simp only [List.length_cons, List.length_drop]
    omega
  · simp

/-- `html.unescape`, modelled on the five predefined XML entities
(`&amp;` `&lt;` `&gt;` `&quot;` `&#39;`); like Python's, the
replacement is a single non-recursive pass. -/
def pyHtmlUnescape : Str → Str
  | [] => []
  | c :: rest =>
      if c == '&' then
        if ("amp;".toList).isPrefixOf rest then '&' :: pyHtmlUnescape (rest.drop 4)
        else if ("lt;".toList).isPrefixOf rest then '<' :: pyHtmlUnescape (rest.drop 3)
        else if ("gt;".toList).isPrefixOf rest then '>' :: pyHtmlUnescape (rest.drop 3)
        else if ("quot;".toList).isPrefixOf rest then '"' :: pyHtmlUnescape (rest.drop 5)
        else if ("#39;".toList).isPrefixOf rest then '\'' :: pyHtmlUnescape (rest.drop 4)
        else '&' :: pyHtmlUnescape rest
      else c :: pyHtmlUnescape rest
termination_by l => l.length
decreasing_by all_goals (simp only [List.length_cons, List.length_drop]; omega)

/-- Matcher for the tail of the attribution pattern
`\(@\w+\)\s*\w+\s+\d+,\s*\d+` (no backtracking is needed in this
segment).  Returns the remainder after the match. -/
def matchAttrParen (l : Str) : Option Str :=
  match l with
  | '(' :: '@' :: rest =>
      let w := rest.takeWhile isWordChar
      if w.isEmpty then none else
      match rest.drop w.length with
      | ')' :: rest2 =>
          let rest3 := rest2.dropWhile isSpaceChar
          let w2 := rest3.takeWhile isWordChar
          if w2.isEmpty then none else
          let rest4 := rest3.drop w2.length
          let sp := rest4.takeWhile isSpaceChar
          if sp.isEmpty then none else
          let rest5 := rest4.drop sp.length
          let d1 := rest5.takeWhile Char.isDigit
          if d1.isEmpty then none else
          match rest5.drop d1.length with
          | ',' :: rest6 =>
              let rest7 := rest6.dropWhile isSpaceChar
              let d2 := rest7.takeWhile Char.isDigit
              if d2.isEmpty then none else some (rest7.drop d2.length)
          | _ => none
      | _ => none
  | _ => none

/-- Backtracking over the greedy `\S+`: try the split after `k`
characters of the non-space run, longest first. -/
def attrBacktrack (l1 : Str) : Nat → Option Str
  | 0 => none
  | k + 1 =>
      match matchAttrParen ((l1.drop (k + 1)).dropWhile isSpaceChar) with
      | some r => some r
      | none => attrBacktrack l1 k

/-- Try to match `\s*\S+\s*\(@\w+\)\s*\w+\s+\d+,\s*\d+` (the
attribution pattern after its leading `—`).  Returns the remainder
after the match. -/
def matchAttrAt (l : Str) : Option Str :=
  let l1 := l.dropWhile isSpaceChar
  let run := l1.takeWhile (fun c => !isSpaceChar c)
  if run.isEmpty then none else attrBacktrack l1 run.length

/-- Fuelled scanner for
`re.sub(r'—\s*\S+\s*\(@\w+\)\s*\w+\s+\d+,\s*\d+', '', ·)`; the fuel
(initially the input length, an upper bound on the number of steps)
only makes the recursion structural. -/
def stripAttributionGo : Nat → Str → Str
  | 0, l => l
  | _ + 1, [] => []
  | fuel + 1, c :: rest =>
      if c == '—' then
        match matchAttrAt rest with
        | some r => stripAttributionGo fuel r
        | none => c :: stripAttributionGo fuel rest
      else c :: stripAttributionGo fuel rest

/-- Strip all trailing-attribution matches, as in lines 175 and 223. -/
def stripAttribution (l : Str) : Str := stripAttributionGo l.length l

/-- `re.search` for a pattern `pre([^stop]+)`: first occurrence of the
literal `pre` followed by at least one non-`stop` character; captures
the maximal non-`stop` run. -/
def searchAfter (pre : Str) (stop : Char) : Str → Option Str
  | [] => none
  | c :: rest =>
      if pre.isPrefixOf (c :: rest) then
        let cap := ((c :: rest).drop pre.length).takeWhile (fun d => d != stop)
        if cap.isEmpty then searchAfter pre stop rest else some cap
      else searchAfter pre stop rest

/-- `re.search` for `pre([^"]+)"`: like `searchAfter` with stop `"`
but additionally requiring the closing quote. -/
def searchJsonField (pre : Str) : Str → Option Str
  | [] => none
  | c :: rest =>
      if pre.isPrefixOf (c :: rest) then
        let after := (c :: rest).drop pre.length
        let cap := after.takeWhile (fun d => d != '"')
        if !cap.isEmpty && (after.drop cap.length).head? == some '"' then some cap
        else searchJsonField pre rest
      else searchJsonField pre rest

/-- `caption.replace('\\n', '\n')`: replace each two-character
backslash-n sequence by a newline. -/
def replaceBackslashN : Str → Str
  | [] => []
  | '\\' :: 'n' :: rest => '\n' :: replaceBackslashN rest
  | c :: rest => c :: replaceBackslashN rest

/-- `re.search(r'twitter\.com/([^/]+)', url)` capture, with `''` when
there is no match (line 236-240). -/
def twitterHandle (url : Str) : Str :=
  (searchAfter ("twitter.com/".toList) '/' url).getD []

/-- `f'Tweet by {author}' if author else 'Twitter Post'`. -/
def tweetTitle (author : Str) : Str :=
  if author.isEmpty then "Twitter Post".toList
  else "Tweet by ".toList ++ author

/-! ## Per-platform extractors (src/content_extractor.py lines 108-447)

Each extractor returns the `Except`-wrapped result of the Python call
paired with the number of outbound HTTP requests it performed. -/

/-- Python `' '.join(tokens)`: concatenate with a single space between
consecutive elements. -/
def joinSpaceTok : List Str → Str
  | [] => []
  | [t] => t
  | t :: ts => t ++ ' ' :: joinSpaceTok ts

/-- A failure dictionary `{'success': False, 'error': msg}`. -/
def failResult (msg : Str) : ExtractionResult :=
  { success := false, error := some msg }

/-- `_extract_instagram` applied to a successfully fetched page
(lines 114-150).  Dict-literal evaluation order: the
`caption['content']` access (line 121) happens before the
`image['content']` access (line 129); the script-blob enrichment and
the title derivation follow. -/
def instagramFromSoup (url : Str) (soup : Soup) : Except PyExc ExtractionResult :=
  match contentOrElse soup.ogDescription [] with
  | .error e => .error e
  | .ok fullCaption0 =>
    match contentOrElse soup.ogImage [] with
    | .error e => .error e
    | .ok imageUrl =>
      let fullCaption :=
        match soup.sharedData with
        | none => fullCaption0
        | some (capOpt, _) => capOpt.getD fullCaption0
      let author :=
        match soup.sharedData with
        | none => ([] : Str)
        | some (_, user) => user
      .ok { success := true
            platform := some ("instagram".toList)
            url := some url
            title := some (clean_instagram_title fullCaption)
            caption := some fullCaption
            image_url := some imageUrl
            author := some author
            media_type := some ("post".toList) }

/-- `_extract_instagram` (lines 108-150). -/
def extractInstagram (env : Env) (url : Str) : Except PyExc ExtractionResult × Nat :=
  match env.fetch url with
  | none => (.ok (failResult ("Failed to fetch Instagram post".toList)), 1)
  | some soup => (instagramFromSoup url soup, 1)

/-- The oEmbed branch of `_extract_twitter` (lines 158-186): strip
tags from the snippet, strip, unescape entities, strip the trailing
attribution, strip again. -/
def twitterFromOEmbed (url : Str) (oe : OEmbed) : ExtractionResult :=
  let text := pyStrip (stripAttribution (pyHtmlUnescape (pyStrip (stripTags oe.html))))
  { success := true
    platform := some ("twitter".toList)
    url := some url
    title := some (tweetTitle oe.author_name)
    caption := some text
    image_url := some []
    author := some oe.author_name
    media_type := some ("tweet".toList) }

/-- The page-fetch branch of `_extract_twitter` (lines 191-234):
returns `none` when the derived caption is empty (the code then falls
through to the URL-derived fallback). -/
def twitterFromSoup (url : Str) (soup : Soup) : Except PyExc (Option ExtractionResult) :=
  let description :=
    match soup.ogDescription with
    | some t => some t
    | none => soup.metaNameDescription
  let caption0 :=
    match description with
    | none => ([] : Str)
    | some inner => pyHtmlUnescape (match inner with | some s => s | none => [])
  let caption1 :=
    match soup.initialStateScript with
    | none => caption0
    | some s =>
        match searchJsonField ("\"text\":\"".toList) s with
        | some t => replaceBackslashN t
        | none => caption0
  let author :=
    match soup.initialStateScript with
    | none => ([] : Str)
    | some s =>
        match searchJsonField ("\"screen_name\":\"".toList) s with
        | some a => a
        | none => []
  if caption1.isEmpty then .ok none
  else
    match contentOrElse soup.ogTitle (tweetTitle author) with
    | .error e => .error e
    | .ok titleVal =>
      match contentOrElse soup.ogImage [] with
      | .error e => .error e
      | .ok img =>
        .ok (some
          { success := true
            platform := some ("twitter".toList)
            url := some url
            title := some titleVal
            caption := some (pyStrip (stripAttribution caption1))
            image_url := some img
            author := some author
            media_type := some ("tweet".toList) })

/-- The final URL-derived fallback of `_extract_twitter`
(lines 236-252). -/
def twitterFallback (url : Str) : ExtractionResult :=
  let author := twitterHandle url
  { success := true
    platform := some ("twitter".toList)
    url := some url
    title := some (tweetTitle author)
    caption := some (if author.isEmpty then "Twitter Post — click to view".toList
                     else "Tweet by ".toList ++ author ++ " — click to view".toList)
    image_url := some []
    author := some author
    media_type := some ("tweet".toList) }

/-- `_extract_twitter` (lines 152-252): oEmbed endpoint, then page
fetch, then URL-derived fallback. -/
def extractTwitter (env : Env) (url : Str) : Except PyExc ExtractionResult × Nat :=
  match env.oembed url with
  | some oe => (.ok (twitterFromOEmbed url oe), 1)
  | none =>
    match env.fetch url with
    | none => (.ok (twitterFallback url), 2)
    | some soup =>
      match twitterFromSoup url soup with
      | .error e => (.error e, 2)
      | .ok (some r) => (.ok r, 2)
      | .ok none => (.ok (twitterFallback url), 2)

/-- The shared og-meta-tag extraction used by `_extract_facebook`,
`_extract_tiktok`, `_extract_linkedin`, `_extract_reddit` and
`_extract_pinterest` (their bodies are identical up to the platform
tag, default title and media type). -/
def ogFromSoup (platform defaultTitle mediaType url : Str) (soup : Soup) :
    Except PyExc ExtractionResult :=
  match contentOrElse soup.ogTitle defaultTitle with
  | .error e => .error e
  | .ok t =>
    match contentOrElse soup.ogDescription [] with
    | .error e => .error e
    | .ok c =>
      match contentOrElse soup.ogImage [] with
      | .error e => .error e
      | .ok img =>
        .ok { success := true
              platform := some platform
              url := some url
              title := some t
              caption := some c
              image_url := some img
              author := some []
              media_type := some mediaType }

/-- Fetch-then-continue skeleton shared by all single-fetch
extractors. -/
def withFetch (env : Env) (url : Str) (errMsg : Str)
    (k : Soup → Except PyExc ExtractionResult) : Except PyExc ExtractionResult × Nat :=
  match env.fetch url with
  | none => (.ok (failResult errMsg), 1)
  | some soup => (k soup, 1)

/-- `_extract_facebook` (lines 254-274). -/
def extractFacebook (env : Env) (url : Str) : Except PyExc ExtractionResult × Nat :=
  withFetch env url ("Failed to fetch Facebook post".toList)
    (ogFromSoup ("facebook".toList) ("Facebook Post".toList) ("post".toList) url)

/-- `_extract_tiktok` (lines 309-329). -/
def extractTiktok (env : Env) (url : Str) : Except PyExc ExtractionResult × Nat :=
  withFetch env url ("Failed to fetch TikTok video".toList)
    (ogFromSoup ("tiktok".toList) ("TikTok Video".toList) ("video".toList) url)

/-- `_extract_linkedin` (lines 331-351). -/
def extractLinkedin (env : Env) (url : Str) : Except PyExc ExtractionResult × Nat :=
  withFetch env url ("Failed to fetch LinkedIn post".toList)
    (ogFromSoup ("linkedin".toList) ("LinkedIn Post".toList) ("post".toList) url)

/-- `_extract_reddit` (lines 353-373). -/
def extractReddit (env : Env) (url : Str) : Except PyExc ExtractionResult × Nat :=
  withFetch env url ("Failed to fetch Reddit post".toList)
    (ogFromSoup ("reddit".toList) ("Reddit Post".toList) ("post".toList) url)

/-- `_extract_pinterest` (lines 375-395). -/
def extractPinterest (env : Env) (url : Str) : Except PyExc ExtractionResult × Nat :=
  withFetch env url ("Failed to fetch Pinterest pin".toList)
    (ogFromSoup ("pinterest".toList) ("Pinterest Pin".toList) ("image".toList) url)

/-- Video-id extraction of `_extract_youtube` (lines 287-296):
`re.search(r'v=([^&]+)')` when the url contains `youtube.com`, else
`re.search(r'youtu\.be/([^?]+)')` when it contains `youtu.be`;
`''` when the applicable search fails. -/
def parseVideoId (url : Str) : Str :=
  if strContains url ("youtube.com".toList) then
    (searchAfter ("v=".toList) '&' url).getD []
  else if strContains url ("youtu.be".toList) then
    (searchAfter ("youtu.be/".toList) '?' url).getD []
  else []

/-- The constructed YouTube thumbnail
`https://img.youtube.com/vi/{video_id}/maxresdefault.jpg`. -/
def thumbUrl (videoId : Str) : Str :=
  "https://img.youtube.com/vi/".toList ++ videoId ++ "/maxresdefault.jpg".toList

/-- `_extract_youtube` applied to a successfully fetched page (lines
283-307).  `image['content']` is only evaluated when no video id was
found (conditional-expression short-circuit on line 304); the result
dict carries `video_id` and no `author` key. -/
def youtubeFromSoup (url : Str) (soup : Soup) : Except PyExc ExtractionResult :=
  match contentOrElse soup.ogTitle ("YouTube Video".toList) with
  | .error e => .error e
  | .ok t =>
    match contentOrElse soup.ogDescription [] with
    | .error e => .error e
    | .ok c =>
      let videoId := parseVideoId url
      match (if videoId.isEmpty then contentOrElse soup.ogImage []
             else .ok (thumbUrl videoId)) with
      | .error e => .error e
      | .ok img =>
        .ok { success := true
              platform := some ("youtube".toList)
              url := some url
              title := some t
              caption := some c
              image_url := some img
              video_id := some videoId
              media_type := some ("video".toList) }

/-- `_extract_youtube` (lines 276-307). -/
def extractYoutube (env : Env) (url : Str) : Except PyExc ExtractionResult × Nat :=
  match env.fetch url with
  | none => (.ok (failResult ("Failed to fetch YouTube video".toList)), 1)
  | some soup => (youtubeFromSoup url soup, 1)

/-- `_extract_generic` applied to a successfully fetched page
(lines 404-447).  Exceptions can arise from `title['content']` /
`description['content']` / `image['content']` accesses, in that
order. -/
def genericFromSoup (url : Str) (soup : Soup) : Except PyExc ExtractionResult :=
  match (match soup.titleTag with
         | some s => .ok s
         | none =>
           match contentOrElse soup.ogTitle ("Untitled".toList) with
           | .error e => .error e
           | .ok t => .ok (some t) : Except PyExc (Option Str)) with
  | .error e => .error e
  | .ok titleOpt =>
    match (match soup.metaNameDescription with
           | some inner => .ok (match inner with | some s => s | none => [])
           | none => contentOrElse soup.ogDescription [] : Except PyExc Str) with
    | .error e => .error e
    | .ok description =>
      match contentOrElse soup.ogImage [] with
      | .error e => .error e
      | .ok imageUrl =>
        let author := contentGet soup.metaNameAuthor
        let mainContent :=
          match soup.articleParas with
          | none => ([] : Str)
          | some ps => joinSpaceTok (ps.take 5)
        .ok { success := true
              platform := some ("blog".toList)
              url := some url
              title := some (match titleOpt with
                             | some t => if t.isEmpty then "Untitled".toList else pyStrip t
                             | none => "Untitled".toList)
              caption := some (if description.isEmpty then mainContent.take 500
                               else pyStrip description)
              image_url := some imageUrl
              author := some author
              media_type := some ("article".toList) }

/-- `_extract_generic` (lines 397-447). -/
def extractGeneric (env : Env) (url : Str) : Except PyExc ExtractionResult × Nat :=
  match env.fetch url with
  | none => (.ok (failResult ("Failed to fetch webpage".toList)), 1)
  | some soup => (genericFromSoup url soup, 1)

/-! ## Dispatcher and retry wrapper (lines 28-59 and 449-469) -/

/-- `extract` (lines 28-59): validate the URL (no network call and the
fixed error on failure), classify the platform, and dispatch through
the `extractors` dict (modelled by an if-chain over its distinct keys;
`dict.get`'s default is the generic extractor). -/
def extract (env : Env) (url : Str) : Except PyExc ExtractionResult × Nat :=
  if !is_valid_url url then
    (.ok (failResult ("Invalid URL format".toList)), 0)
  else
    let platform := detect_platform url
    if platform = "instagram".toList then extractInstagram env url
    else if platform = "twitter".toList then extractTwitter env url
    else if platform = "facebook".toList then extractFacebook env url
    else if platform = "youtube".toList then extractYoutube env url
    else if platform = "tiktok".toList then extractTiktok env url
    else if platform = "linkedin".toList then extractLinkedin env url
    else if platform = "reddit".toList then extractReddit env url
    else if platform = "pinterest".toList then extractPinterest env url
    else extractGeneric env url

/-- The loop of `extract_with_retry` (lines 460-469).  `dispatch i` is
the outcome of the `i`-th `self.extract(url)` call (a stub dispatcher
may vary between attempts); `fuel` is the number of loop iterations
still to run; the returned `Nat` counts dispatcher invocations.  With
zero total iterations the final `return result` reads an unbound local
variable, modelled as `.error .nameError`.  In the last iteration the
loop returns `dispatch i` whether or not it succeeded; earlier
iterations return early exactly on success. -/
def retryGo (dispatch : Nat → Except PyExc ExtractionResult) :
    Nat → Nat → Except PyExc ExtractionResult × Nat
  | i, 0 => (.error .nameError, i)
  | i, 1 => (dispatch i, i + 1)
  | i, fuel + 2 =>
      match dispatch i with
      | .error e => (.error e, i + 1)
      | .ok r => if r.success then (.ok r, i + 1) else retryGo dispatch (i + 1) (fuel + 1)

/-- `extract_with_retry` (lines 449-469): `range(max_retries)` runs
`max 0 max_retries` iterations, each invoking the dispatcher on the
same url against the same environment. -/
def extract_with_retry (env : Env) (url : Str) (max_retries : Int) :
    Except PyExc ExtractionResult × Nat :=
  retryGo (fun _ => (extract env url).1) 0 max_retries.toNat

/-- A stubbed `extract_with_retry`: the loop of lines 460-469 run
against an arbitrary dispatcher (the sequence of `self.extract(url)`
outcomes). -/
def extract_with_retry_stub (dispatch : Nat → Except PyExc ExtractionResult)
    (max_retries : Int) : Except PyExc ExtractionResult × Nat :=
  retryGo dispatch 0 max_retries.toNat

/-! ## Specification predicates -/

/-- The record invariant of the specification (§3): a failed result
carries a non-empty error; a successful result has populated
`platform`, `url` and `media_type`, and present (possibly empty)
`title` and `caption`. -/
def resultInvariant (r : ExtractionResult) : Prop :=
  (r.success = false → ∃ e, r.error = some e ∧ e ≠ []) ∧
  (r.success = true →
    (∃ p, r.platform = some p ∧ p ≠ []) ∧
    (∃ u, r.url = some u ∧ u ≠ []) ∧
    (∃ m, r.media_type = some m ∧ m ≠ []) ∧
    (∃ t, r.title = some t) ∧
    (∃ c, r.caption = some c))

/-- A page on which every meta tag the extractor indexes with
`['content']` actually carries its `content` attribute (resp. the
`<title>` tag has a string). -/
def wellAttributed (s : Soup) : Prop :=
  s.ogTitle ≠ some none ∧ s.ogDescription ≠ some none ∧ s.ogImage ≠ some none

/-- An environment all of whose fetched pages are well-attributed. -/
def envWellAttributed (env : Env) : Prop :=
  ∀ url s, env.fetch url = some s → wellAttributed s

/-- No two adjacent periods anywhere in the string (the strings on
which the dot-collapse substitution is the identity). -/
def noDD : Str → Bool
  | [] => true
  | c :: rest =>
      (match rest with
       | [] => true
       | d :: _ => !(c == '.' && d == '.')) && noDD rest

/-- The head, if any, is a plain space or a non-whitespace character
(an invariant of `nwR` outputs). -/
def headOk : Str → Bool
  | [] => true
  | d :: _ => (d == ' ') || !isSpaceChar d

/-- Whitespace-normalised except possibly for a leading space: every
whitespace character is a single `' '` followed by a non-space
character. -/
def tidy : Str → Bool
  | [] => true
  | c :: rest =>
      if isSpaceChar c then
        c == ' ' && (match rest with | [] => false | d :: _ => !isSpaceChar d) && tidy rest
      else tidy rest

/-! ## Concrete data for witnesses and counterexamples -/

/-- An environment in which every fetch and every oEmbed call fails. -/
def envNone : Env := { fetch := fun _ => none, oembed := fun _ => none }

/-- A fetched Instagram page whose `og:description` meta tag lacks its
`content` attribute. -/
def soupNoContent : Soup := { ogDescription := some none }

/-- An environment always returning `soupNoContent`. -/
def envNoContent : Env := { fetch := fun _ => some soupNoContent, oembed := fun _ => none }

/-- A fetched YouTube page with `og:title` "Demo Video" and no
`og:image` (specification scenario B). -/
def soupDemo : Soup := { ogTitle := some (some ("Demo Video".toList)) }

/-- An environment always returning `soupDemo`. -/
def envDemo : Env := { fetch := fun _ => some soupDemo, oembed := fun _ => none }

/-- The result of extracting
`https://www.youtube.com/watch?v=abc123` against `envDemo`. -/
def rDemo : ExtractionResult :=
  { success := true
    platform := some ("youtube".toList)
    url := some ("https://www.youtube.com/watch?v=abc123".toList)
    title := some ("Demo Video".toList)
    caption := some []
    image_url := some (thumbUrl ("abc123".toList))
    video_id := some ("abc123".toList)
    media_type := some ("video".toList) }

/-- A failed extraction result used by dispatcher stubs. -/
def stubFail : ExtractionResult := failResult ("network error".toList)

/-- A successful extraction result used by dispatcher stubs. -/
def stubOk : ExtractionResult := { success := true }

/-- A dispatcher stub that always fails. -/
def stubSeqFail : Nat → ExtractionResult := fun _ => stubFail

/-- A dispatcher stub that fails on the first two attempts and
succeeds from the third on. -/
def stubSeqThird : Nat → ExtractionResult := fun i => if i < 2 then stubFail else stubOk

/-! ## Retry-wrapper lemmas -/

theorem retryGo_count_le (d : Nat → Except PyExc ExtractionResult) :
    ∀ fuel i, (retryGo d i fuel).2 ≤ i + fuel := by
  intro fuel
  induction fuel using Nat.strong_induction_on with
  | _ fuel IH =>
    intro i
    match fuel with
    | 0 => simp [retryGo]
    | 1 => simp [retryGo]
    | n + 2 =>
      rw [retryGo]
      cases hd : d i with
      | error e => dsimp only; omega
      | ok r =>
        dsimp only
        by_cases hs : r.success = true
        · rw [if_pos hs]; dsimp only; omega
        · rw [if_neg hs]
          have := IH (n + 1) (by omega) (i + 1)
          omega

theorem retryGo_all_fail (d : Nat → Except PyExc ExtractionResult) :
    ∀ fuel i, 1 ≤ fuel →
      (∀ k, i ≤ k → k < i + fuel → ∃ r, d k = .ok r ∧ r.success = false) →
      retryGo d i fuel = (d (i + fuel - 1), i + fuel) := by
  intro fuel
  induction fuel using Nat.strong_induction_on with
  | _ fuel IH =>
    intro i hfuel hall
    match fuel with
    | 1 => simp [retryGo]
    | n + 2 =>
      obtain ⟨r, hr, hrs⟩ := hall i (le_refl i) (by omega)
      rw [retryGo, hr]
      simp [hrs]
      have := IH (n + 1) (by omega) (i + 1) (by omega)
        (fun k hk1 hk2 => hall k (by omega) (by omega))
      rw [this]
      simp only [Prod.mk.injEq]
      exact ⟨congrArg d (by omega), by omega⟩

theorem retryGo_first_success (d : Nat → Except PyExc ExtractionResult) :
    ∀ fuel i j, i ≤ j → j < i + fuel →
      (∃ r, d j = .ok r ∧ r.success = true) →
      (∀ k, i ≤ k → k < j → ∃ r, d k = .ok r ∧ r.success = false) →
      retryGo d i fuel = (d j, j + 1) := by
  intro fuel
  induction fuel using Nat.strong_induction_on with
  | _ fuel IH =>
    intro i j hij hjlt hsucc hfail
    match fuel with
    | 0 => omega
    | 1 =>
      have : j = i := by omega
      subst this
      simp [retryGo]
    | n + 2 =>
      rcases Nat.eq_or_lt_of_le hij with heq | hlt
      · subst heq
        obtain ⟨r, hr, hrs⟩ := hsucc
        rw [retryGo, hr]
        simp [hrs, hr]
      · obtain ⟨r, hr, hrs⟩ := hfail i (le_refl i) hlt
        rw [retryGo, hr]
        simp [hrs]
        exact IH (n + 1) (by omega) (i + 1) j hlt (by omega) hsucc
          (fun k hk1 hk2 => hfail k (by omega) hk2)

theorem retryGo_ok (d : Nat → Except PyExc ExtractionResult)
    (hok : ∀ k, ∃ r, d k = .ok r) :
    ∀ fuel i, 1 ≤ fuel → ∃ r n, retryGo d i fuel = (.ok r, n) := by
  intro fuel
  induction fuel using Nat.strong_induction_on with
  | _ fuel IH =>
    intro i hfuel
    match fuel with
    | 1 =>
      obtain ⟨r, hr⟩ := hok i
      exact ⟨r, i + 1, by simp [retryGo, hr]⟩
    | n + 2 =>
      obtain ⟨r, hr⟩ := hok i
      by_cases hs : r.success = true
      · exact ⟨r, i + 1, by rw [retryGo, hr]; simp [hs]⟩
      · obtain ⟨r2, n2, h2⟩ := IH (n + 1) (by omega) (i + 1) (by omega)
        exact ⟨r2, n2, by rw [retryGo, hr]; simp [hs]; exact h2⟩

/-- C3: with a dispatcher returning the results `d 0, d 1, …`,
`extract_with_retry` with `max_attempts = m ≥ 1` invokes the
dispatcher at most `m` times; if every attempt fails it invokes it
exactly `m` times and returns the last failed result unchanged; if
attempt `j` (zero-based, `j < m`) is the first success it returns that
success after exactly `j + 1` invocations. -/
theorem extract_with_retry_retry_behavior (d : Nat → ExtractionResult) (m : Nat)
    (hm : 1 ≤ m) :
    ((extract_with_retry_stub (fun i => .ok (d i)) (m : Int)).2 ≤ m) ∧
    ((∀ k, k < m → (d k).success = false) →
      extract_with_retry_stub (fun i => .ok (d i)) (m : Int) = (.ok (d (m - 1)), m)) ∧
    (∀ j, j < m → (d j).success = true → (∀ k, k < j → (d k).success = false) →
      extract_with_retry_stub (fun i => .ok (d i)) (m : Int) = (.ok (d j), j + 1)) := by
  have hto : ((m : Int)).toNat = m := by omega
  refine ⟨?_, ?_, ?_⟩
  · have := retryGo_count_le (fun i => .ok (d i)) m 0
    simpa [extract_with_retry_stub, hto] using this
  · intro hall
    have := retryGo_all_fail (fun i => .ok (d i)) m 0 hm
      (fun k _ hk => ⟨d k, rfl, hall k (by omega)⟩)
    simpa [extract_with_retry_stub, hto] using this
  · intro j hj hjs hfail
    have := retryGo_first_success (fun i => .ok (d i)) m 0 j (Nat.zero_le j) (by omega)
      ⟨d j, rfl, hjs⟩ (fun k _ hk => ⟨d k, rfl, hfail k hk⟩)
    simpa [extract_with_retry_stub, hto] using this

/-- C3 witness: the always-failing stub is invoked exactly 3 times and
the failure is returned; the fails-twice-then-succeeds stub yields
success after exactly 3 invocations. -/
theorem extract_with_retry_retry_behavior_witness :
    (extract_with_retry_stub (fun i => .ok (stubSeqFail i)) (3 : Int) = (.ok stubFail, 3) ∧
      stubFail.success = false) ∧
    (extract_with_retry_stub (fun i => .ok (stubSeqThird i)) (3 : Int) = (.ok stubOk, 3) ∧
      stubOk.success = true) := by
  refine ⟨⟨?_, rfl⟩, ⟨?_, rfl⟩⟩
  · exact (extract_with_retry_retry_behavior stubSeqFail 3 (by omega)).2.1
      (fun k _ => rfl)
  · exact (extract_with_retry_retry_behavior stubSeqThird 3 (by omega)).2.2 2
      (by omega) rfl (fun k hk => by simp [stubSeqThird, hk, stubFail, failResult])

/-- C10: the retry wrapper is total exactly when `max_retries ≥ 1`:
with a dispatcher that returns results, `max_retries ≥ 1` yields a
returned result, while `max_retries ≤ 0` makes the loop body never
run, so the final `return result` reads an unbound local and the call
faults (`NameError`) instead of returning a result. -/
theorem extract_with_retry_totality (dispatch : Nat → Except PyExc ExtractionResult)
    (m : Int) :
    ((∀ k, ∃ r, dispatch k = .ok r) → 1 ≤ m →
      ∃ r n, extract_with_retry_stub dispatch m = (.ok r, n)) ∧
    (m ≤ 0 → extract_with_retry_stub dispatch m = (.error .nameError, 0)) := by
  constructor
  · intro hok hm
    have h1 : 1 ≤ m.toNat := by omega
    exact retryGo_ok dispatch hok m.toNat 0 h1
  · intro hm
    have h0 : m.toNat = 0 := by omega
    simp [extract_with_retry_stub, h0, retryGo]

/-- C10 witness: with the always-failing (but returning) stub,
`max_retries = 2` returns a result and `max_retries = 0` faults. -/
theorem extract_with_retry_totality_witness :
    (∃ r n, extract_with_retry_stub (fun i => .ok (stubSeqFail i)) (2 : Int) = (.ok r, n)) ∧
    extract_with_retry_stub (fun i => .ok (stubSeqFail i)) (0 : Int) =
      (.error .nameError, 0) := by
  constructor
  · exact (extract_with_retry_totality (fun i => .ok (stubSeqFail i)) 2).1
      (fun k => ⟨stubFail, rfl⟩) (by omega)
  · exact (extract_with_retry_totality (fun i => .ok (stubSeqFail i)) 0).2 (by omega)

/-! ## Classifier lemmas -/

theorem detectGo_first (u : Str) :
    ∀ (table : List (Str × List Str)) (p : Str) (pats : List Str),
      (p, pats) ∈ table →
      (∃ pat ∈ pats, strContains u pat = true) →
      (∀ e ∈ table, e.1 ≠ p → ∀ pat ∈ e.2, strContains u pat = false) →
      detectGo table u = p := by
  intro table
  induction table with
  | nil => intro p pats hmem; simp at hmem
  | cons head tail IH =>
    intro p pats hmem hmatch hothers
    obtain ⟨q0, pats0⟩ := head
    by_cases hq : q0 = p
    · subst hq
      rw [detectGo]
      by_cases hany : pats0.any (fun pat => strContains u pat) = true
      · rw [if_pos hany]
      · rw [if_neg hany]
        rcases List.mem_cons.mp hmem with heq | htail
        · injection heq with h1 h2
          subst h2
          exfalso
          obtain ⟨pat, hpat, hc⟩ := hmatch
          exact hany (List.any_eq_true.mpr ⟨pat, hpat, hc⟩)
        · exact IH q0 pats htail hmatch
            (fun e he => hothers e (List.mem_cons_of_mem _ he))
    · have hfail : ∀ pat ∈ pats0, strContains u pat = false :=
        hothers (q0, pats0) (List.mem_cons_self _ _) hq
      rw [detectGo]
      have hany : pats0.any (fun pat => strContains u pat) = false := by
        rw [List.any_eq_false]
        intro pat hpat
        simp [hfail pat hpat]
      rw [hany]
      simp only [Bool.false_eq_true, if_false]
      rcases List.mem_cons.mp hmem with heq | htail
      · exfalso; apply hq; injection heq with h1 _; exact h1.symm
      · exact IH p pats htail hmatch
          (fun e he => hothers e (List.mem_cons_of_mem _ he))

theorem detectGo_nomatch (u : Str) :
    ∀ (table : List (Str × List Str)),
      (∀ e ∈ table, ∀ pat ∈ e.2, strContains u pat = false) →
      detectGo table u = "blog".toList := by
  intro table
  induction table with
  | nil => intro; rfl
  | cons head tail IH =>
    intro hall
    obtain ⟨q0, pats0⟩ := head
    rw [detectGo]
    have hany : pats0.any (fun pat => strContains u pat) = false := by
      rw [List.any_eq_false]
      intro pat hpat
      simp [hall (q0, pats0) (List.mem_cons_self _ _) pat hpat]
    rw [hany]
    simp only [Bool.false_eq_true, if_false]
    exact IH (fun e he => hall e (List.mem_cons_of_mem _ he))

/-- C4 (amended): `detect_platform` lower-cases the URL and scans the
ordered platform table, returning the first platform one of whose
patterns occurs as a substring: whenever the patterns of exactly one
platform match the URL, that platform is returned, and when no
pattern matches, `"blog"` is returned.  (The claim's unqualified
"every URL containing a known platform domain substring yields that
platform" fails when substrings of two platforms are both present;
the earlier table entry wins — see the counterexample.) -/
theorem detect_platform_table_scan (url : Str) :
    (∀ p pats, (p, pats) ∈ PLATFORM_PATTERNS →
      (∃ pat ∈ pats, strContains (pyLower url) pat = true) →
      (∀ e ∈ PLATFORM_PATTERNS, e.1 ≠ p →
        ∀ pat ∈ e.2, strContains (pyLower url) pat = false) →
      detect_platform url = p) ∧
    ((∀ e ∈ PLATFORM_PATTERNS,
        ∀ pat ∈ e.2, strContains (pyLower url) pat = false) →
      detect_platform url = "blog".toList) := by
  constructor
  · intro p pats hmem hmatch hothers
    exact detectGo_first (pyLower url) PLATFORM_PATTERNS p pats hmem hmatch hothers
  · intro hall
    exact detectGo_nomatch (pyLower url) PLATFORM_PATTERNS hall

/-- C4 witness: a URL whose only platform substring is
`instagram.com` classifies as instagram, and a URL matching no
pattern classifies as blog. -/
theorem detect_platform_table_scan_witness :
    detect_platform ("https://INSTAGRAM.com/p/abc".toList) = "instagram".toList ∧
    detect_platform ("https://example.org/post".toList) = "blog".toList := by
  constructor
  · exact (detect_platform_table_scan _).1 ("instagram".toList)
      (["instagram.com".toList, "instagr.am".toList]) (by decide)
      ⟨"instagram.com".toList, by decide, by decide⟩ (by decide)
  · exact (detect_platform_table_scan _).2 (by decide)

/-- C4 counterexample: the URL
`https://instagram.com/p/abc?share=twitter.com/x` contains the known
platform domain substring `twitter.com`, yet `detect_platform` does
not return `twitter` — the earlier table entry `instagram` wins.  This
refutes the claim's universally quantified "for every URL containing a
known platform domain substring it returns that platform". -/
theorem detect_platform_first_match_counterexample :
    strContains (pyLower ("https://instagram.com/p/abc?share=twitter.com/x".toList))
        ("twitter.com".toList) = true ∧
    ("twitter".toList, ["twitter.com".toList, "x.com".toList]) ∈ PLATFORM_PATTERNS ∧
    detect_platform ("https://instagram.com/p/abc?share=twitter.com/x".toList) ≠
      "twitter".toList ∧
    detect_platform ("https://instagram.com/p/abc?share=twitter.com/x".toList) =
      "instagram".toList := by
  refine ⟨by decide, by decide, by decide, by decide⟩

/-- C2: for every environment and input, an input failing the URL
validity check yields `success=false` with error "Invalid URL format"
and zero network requests; a valid URL is dispatched to the strategy
matching its detected platform (the generic strategy when the
classifier falls through to `blog`). -/
theorem extract_validates_and_dispatches (env : Env) (url : Str) :
    (is_valid_url url = false →
      extract env url = (.ok (failResult ("Invalid URL format".toList)), 0)) ∧
    (is_valid_url url = true →
      (detect_platform url = "instagram".toList → extract env url = extractInstagram env url) ∧
      (detect_platform url = "twitter".toList → extract env url = extractTwitter env url) ∧
      (detect_platform url = "facebook".toList → extract env url = extractFacebook env url) ∧
      (detect_platform url = "youtube".toList → extract env url = extractYoutube env url) ∧
      (detect_platform url = "tiktok".toList → extract env url = extractTiktok env url) ∧
      (detect_platform url = "linkedin".toList → extract env url = extractLinkedin env url) ∧
      (detect_platform url = "reddit".toList → extract env url = extractReddit env url) ∧
      (detect_platform url = "pinterest".toList → extract env url = extractPinterest env url) ∧
      (detect_platform url = "blog".toList → extract env url = extractGeneric env url)) := by
  constructor
  · intro h
    simp [extract, h]
  · intro hv
    refine ⟨?_, ?_, ?_, ?_, ?_, ?_, ?_, ?_, ?_⟩ <;>
      (intro hp; simp [extract, hv, hp])

/-- C2 witness: the string `"not a url"` yields the invalid-URL
failure with zero network requests, and a YouTube URL dispatches to
the YouTube strategy. -/
theorem extract_validates_and_dispatches_witness :
    extract envNone ("not a url".toList) =
      (.ok (failResult ("Invalid URL format".toList)), 0) ∧
    extract envNone ("https://youtube.com/watch?v=x".toList) =
      extractYoutube envNone ("https://youtube.com/watch?v=x".toList) := by
  constructor
  · exact (extract_validates_and_dispatches envNone _).1 (by decide)
  · exact (((extract_validates_and_dispatches envNone _).2 (by decide)).2.2.2).1 (by decide)

/-! ## YouTube and Twitter strategy theorems -/

theorem contentOrElse_nil_ok {t : Option (Option Str)} {s : Str}
    (h : contentOrElse t [] = .ok s) : s = contentGet t := by
  rcases t with _ | inner
  · simpa [contentOrElse, contentGet] using h.symm
  · rcases inner with _ | v
    · simp [contentOrElse] at h
    · simpa [contentOrElse, contentGet] using h.symm

/-- C9: whenever a YouTube page fetch succeeds and a video id can be
parsed from the URL (by the code's `v=` / `youtu.be/` searches), the
successful result's `image_url` is the constructed thumbnail
`https://img.youtube.com/vi/{id}/maxresdefault.jpg`, regardless of any
`og:image` tag; only when no id is found does `image_url` fall back to
the `og:image` content.  The result's `video_id` is the parsed id. -/
theorem youtube_thumbnail_preference (env : Env) (url : Str) (soup : Soup)
    (hf : env.fetch url = some soup) :
    ∀ r, (extractYoutube env url).1 = .ok r →
      r.video_id = some (parseVideoId url) ∧
      (parseVideoId url ≠ [] → r.image_url = some (thumbUrl (parseVideoId url))) ∧
      (parseVideoId url = [] → r.image_url = some (contentGet soup.ogImage)) := by
  intro r hr
  unfold extractYoutube at hr
  rw [hf] at hr
  dsimp only at hr
  unfold youtubeFromSoup at hr
  cases h1 : contentOrElse soup.ogTitle ("YouTube Video".toList) with
  | error e => rw [h1] at hr; cases hr
  | ok t =>
    rw [h1] at hr
    dsimp only at hr
    cases h2 : contentOrElse soup.ogDescription [] with
    | error e => rw [h2] at hr; cases hr
    | ok c =>
      rw [h2] at hr
      dsimp only at hr
      by_cases hv : (parseVideoId url).isEmpty
      · rw [if_pos hv] at hr
        cases h3 : contentOrElse soup.ogImage [] with
        | error e => rw [h3] at hr; cases hr
        | ok img =>
          rw [h3] at hr
          injection hr with hr
          subst hr
          refine ⟨rfl, ?_, ?_⟩
          · intro hne
            exact absurd (List.isEmpty_iff.mp hv) hne
          · intro _
            simp [contentOrElse_nil_ok h3]
      · rw [if_neg hv] at hr
        injection hr with hr
        subst hr
        refine ⟨rfl, fun _ => rfl, ?_⟩
        intro h0
        exact absurd (List.isEmpty_iff.mpr h0) hv

/-- C9 witness: specification scenario B — a fetch returning
`og:title="Demo Video"` and no `og:image` for
`https://www.youtube.com/watch?v=abc123` yields the constructed
thumbnail for id `abc123`. -/
theorem youtube_thumbnail_preference_witness :
    (extractYoutube envDemo ("https://www.youtube.com/watch?v=abc123".toList)).1 =
      .ok rDemo ∧
    rDemo.image_url = some (thumbUrl ("abc123".toList)) ∧
    rDemo.title = some ("Demo Video".toList) := by
  refine ⟨by decide, ?_, by decide⟩
  have h := (youtube_thumbnail_preference envDemo
      ("https://www.youtube.com/watch?v=abc123".toList) soupDemo rfl rDemo
      (by decide)).2.1 (by decide)
  have hp : parseVideoId ("https://www.youtube.com/watch?v=abc123".toList) =
      "abc123".toList := by decide
  rw [hp] at h
  exact h

/-- C6 (amended): when both the oEmbed call and the page fetch fail,
the Twitter strategy synthesizes a minimal successful result whose
author is the capture of `re.search(r'twitter\.com/([^/]+)', url)` —
the handle is parsed from the URL only for `twitter.com` URLs; for
URLs without a `twitter.com/` segment (such as `x.com` URLs, which
the claim also covers) the author is empty and fully generic
placeholder caption and title are used. -/
theorem twitter_fallback_handle (env : Env) (url : Str)
    (ho : env.oembed url = none) (hf : env.fetch url = none) :
    (extractTwitter env url).1 = .ok (twitterFallback url) ∧
    (twitterFallback url).author = some (twitterHandle url) ∧
    (twitterFallback url).title = some (tweetTitle (twitterHandle url)) ∧
    (twitterHandle url = [] →
      (twitterFallback url).caption = some ("Twitter Post — click to view".toList)) ∧
    (twitterHandle url ≠ [] →
      (twitterFallback url).caption =
        some ("Tweet by ".toList ++ twitterHandle url ++ " — click to view".toList)) := by
  refine ⟨?_, rfl, rfl, ?_, ?_⟩
  · unfold extractTwitter
    rw [ho, hf]
  · intro h
    simp [twitterFallback, List.isEmpty_iff, h]
  · intro h
    simp [twitterFallback, List.isEmpty_iff, h]

/-- C6 witness: for a `twitter.com` URL with oEmbed and fetch both
failing, the synthesized result carries the handle from the URL
path. -/
theorem twitter_fallback_handle_witness :
    (extractTwitter envNone ("https://twitter.com/jane/status/1".toList)).1 =
      .ok (twitterFallback ("https://twitter.com/jane/status/1".toList)) ∧
    (twitterFallback ("https://twitter.com/jane/status/1".toList)).author =
      some ("jane".toList) := by
  have h := twitter_fallback_handle envNone
    ("https://twitter.com/jane/status/1".toList) rfl rfl
  refine ⟨h.1, ?_⟩
  have h2 := h.2.1
  rw [show twitterHandle ("https://twitter.com/jane/status/1".toList) =
      "jane".toList from by decide] at h2
  exact h2

/-- C6 counterexample: for the Twitter/X URL
`https://x.com/jane/status/1` (classified as twitter) with oEmbed and
fetch both failing, the synthesized result's author is the empty
string, not the handle `jane` present in the URL path — the fallback
regex only matches `twitter.com/`.  This refutes the claim's "for
every Twitter/X URL … containing the author handle parsed from the
URL path". -/
theorem twitter_fallback_xcom_counterexample :
    (extractTwitter envNone ("https://x.com/jane/status/1".toList)).1 =
      .ok (twitterFallback ("https://x.com/jane/status/1".toList)) ∧
    detect_platform ("https://x.com/jane/status/1".toList) = "twitter".toList ∧
    (twitterFallback ("https://x.com/jane/status/1".toList)).author = some [] ∧
    (twitterFallback ("https://x.com/jane/status/1".toList)).author ≠
      some ("jane".toList) := by
  exact ⟨by decide, by decide, by decide, by decide⟩

/-! ## Title bound (C8) -/

theorem pyStrip_length_le (l : Str) : (pyStrip l).length ≤ l.length := by
  have h1 := (List.dropWhile_sublist (l := l) isSpaceChar).length_le
  have h2 := (List.dropWhile_sublist
    (l := (l.dropWhile isSpaceChar).reverse) isSpaceChar).length_le
  simp only [pyStrip, List.length_reverse] at *
  omega

theorem titleLastResort_length (t : Str) : (titleLastResort t).length ≤ 60 := by
  unfold titleLastResort
  by_cases ht : t.isEmpty
  · rw [if_pos ht]; decide
  · rw [if_neg ht]
    have h1 := pyStrip_length_le (t.take 60)
    have h2 : (t.take 60).length ≤ 60 := by
      rw [List.length_take]; omega
    omega

/-- C8: for every input, `_clean_instagram_title` (the spec's
`derive_short_title`) returns at most 61 characters (a 60-character
first sentence plus its trailing period), and on the empty input it
returns the non-empty default label "Instagram Post". -/
theorem clean_instagram_title_length_bound (caption : Str) :
    (clean_instagram_title caption).length ≤ 61 ∧
    (caption = [] → clean_instagram_title caption = "Instagram Post".toList) := by
  constructor
  · unfold clean_instagram_title
    by_cases hc : caption.isEmpty
    · rw [if_pos hc]; decide
    · rw [if_neg hc]
      by_cases hdot : (strip_social_noise caption).contains '.'
      · rw [if_pos hdot]
        by_cases hlen :
            ((strip_social_noise caption).takeWhile (fun c => c != '.')).length ≤ 60
        · rw [if_pos hlen]
          have := pyStrip_length_le
            ((strip_social_noise caption).takeWhile (fun c => c != '.'))
          simp only [List.length_append, List.length_cons, List.length_nil]
          omega
        · rw [if_neg hlen]
          have := titleLastResort_length (strip_social_noise caption)
          omega
      · rw [if_neg hdot]
        have := titleLastResort_length (strip_social_noise caption)
        omega
  · intro h
    subst h
    rfl

/-- C8 witness: on the empty caption the bound holds and the default
is returned. -/
theorem clean_instagram_title_length_bound_witness :
    (clean_instagram_title []).length ≤ 61 ∧
    clean_instagram_title [] = "Instagram Post".toList :=
  ⟨(clean_instagram_title_length_bound []).1,
   (clean_instagram_title_length_bound []).2 rfl⟩

/-! ## Exception behaviour (C5) -/

theorem contentOrElse_ok_of {t : Option (Option Str)} (h : t ≠ some none) (d : Str) :
    ∃ s, contentOrElse t d = .ok s := by
  rcases t with _ | (_ | v)
  · exact ⟨d, rfl⟩
  · exact absurd rfl h
  · exact ⟨v, rfl⟩

theorem exists_ok_ite {α ε : Type} {c : Prop} [Decidable c] (a b : α) :
    ∃ r : α, (if c then (Except.ok a : Except ε α) else Except.ok b) = Except.ok r := by
  by_cases h : c
  · exact ⟨a, by rw [if_pos h]⟩
  · exact ⟨b, by rw [if_neg h]⟩

theorem instagramFromSoup_ok (url : Str) (soup : Soup) (wa : wellAttributed soup) :
    ∃ r, instagramFromSoup url soup = .ok r := by
  obtain ⟨c0, hc0⟩ := contentOrElse_ok_of wa.2.1 []
  obtain ⟨i0, hi0⟩ := contentOrElse_ok_of wa.2.2 []
  unfold instagramFromSoup
  rw [hc0, hi0]
  exact ⟨_, rfl⟩

theorem ogFromSoup_ok (p dt mt url : Str) (soup : Soup) (wa : wellAttributed soup) :
    ∃ r, ogFromSoup p dt mt url soup = .ok r := by
  obtain ⟨t0, ht0⟩ := contentOrElse_ok_of wa.1 dt
  obtain ⟨c0, hc0⟩ := contentOrElse_ok_of wa.2.1 []
  obtain ⟨i0, hi0⟩ := contentOrElse_ok_of wa.2.2 []
  unfold ogFromSoup
  rw [ht0, hc0, hi0]
  exact ⟨_, rfl⟩

theorem youtubeFromSoup_ok (url : Str) (soup : Soup) (wa : wellAttributed soup) :
    ∃ r, youtubeFromSoup url soup = .ok r := by
  obtain ⟨t0, ht0⟩ := contentOrElse_ok_of wa.1 ("YouTube Video".toList)
  obtain ⟨c0, hc0⟩ := contentOrElse_ok_of wa.2.1 []
  obtain ⟨i0, hi0⟩ := contentOrElse_ok_of wa.2.2 []
  unfold youtubeFromSoup
  rw [ht0, hc0]
  dsimp only
  by_cases hv : (parseVideoId url).isEmpty
  · rw [if_pos hv, hi0]
    exact ⟨_, rfl⟩
  · rw [if_neg hv]
    exact ⟨_, rfl⟩

theorem twitterFromSoup_ok (url : Str) (soup : Soup) (wa : wellAttributed soup) :
    ∃ o, twitterFromSoup url soup = .ok o := by
  unfold twitterFromSoup
  rcases h1 : soup.ogTitle with _ | (_ | tval)
  · rcases h3 : soup.ogImage with _ | (_ | ival)
    · exact exists_ok_ite _ _
    · exact absurd h3 wa.2.2
    · exact exists_ok_ite _ _
  · exact absurd h1 wa.1
  · rcases h3 : soup.ogImage with _ | (_ | ival)
    · exact exists_ok_ite _ _
    · exact absurd h3 wa.2.2
    · exact exists_ok_ite _ _

theorem genericFromSoup_ok (url : Str) (soup : Soup) (wa : wellAttributed soup) :
    ∃ r, genericFromSoup url soup = .ok r := by
  obtain ⟨t0, ht0⟩ := contentOrElse_ok_of wa.1 ("Untitled".toList)
  obtain ⟨d0, hd0⟩ := contentOrElse_ok_of wa.2.1 []
  obtain ⟨i0, hi0⟩ := contentOrElse_ok_of wa.2.2 []
  unfold genericFromSoup
  rw [ht0, hd0, hi0]
  rcases htt : soup.titleTag with _ | s <;>
    rcases hmn : soup.metaNameDescription with _ | inner <;>
    exact ⟨_, rfl⟩

theorem extractInstagram_ok (env : Env) (henv : envWellAttributed env) (url : Str) :
    ∃ r, (extractInstagram env url).1 = .ok r := by
  unfold extractInstagram
  rcases hf : env.fetch url with _ | soup
  · exact ⟨_, rfl⟩
  · obtain ⟨r, hr⟩ := instagramFromSoup_ok url soup (henv url soup hf)
    exact ⟨r, hr⟩

theorem extractYoutube_ok (env : Env) (henv : envWellAttributed env) (url : Str) :
    ∃ r, (extractYoutube env url).1 = .ok r := by
  unfold extractYoutube
  rcases hf : env.fetch url with _ | soup
  · exact ⟨_, rfl⟩
  · obtain ⟨r, hr⟩ := youtubeFromSoup_ok url soup (henv url soup hf)
    exact ⟨r, hr⟩

theorem extractGeneric_ok (env : Env) (henv : envWellAttributed env) (url : Str) :
    ∃ r, (extractGeneric env url).1 = .ok r := by
  unfold extractGeneric
  rcases hf : env.fetch url with _ | soup
  · exact ⟨_, rfl⟩
  · obtain ⟨r, hr⟩ := genericFromSoup_ok url soup (henv url soup hf)
    exact ⟨r, hr⟩

theorem extractTwitter_ok (env : Env) (henv : envWellAttributed env) (url : Str) :
    ∃ r, (extractTwitter env url).1 = .ok r := by
  unfold extractTwitter
  rcases ho : env.oembed url with _ | oe
  · rcases hf : env.fetch url with _ | soup
    · exact ⟨_, rfl⟩
    · dsimp only
      obtain ⟨o, hoo⟩ := twitterFromSoup_ok url soup (henv url soup hf)
      rcases o with _ | r
      · exact ⟨twitterFallback url, by rw [hoo]⟩
      · exact ⟨r, by rw [hoo]⟩
  · exact ⟨_, rfl⟩

theorem withFetch_ok (env : Env) (url errMsg : Str)
    (k : Soup → Except PyExc ExtractionResult)
    (hk : ∀ soup, wellAttributed soup → ∃ r, k soup = .ok r)
    (henv : envWellAttributed env) :
    ∃ r, (withFetch env url errMsg k).1 = .ok r := by
  unfold withFetch
  rcases hf : env.fetch url with _ | soup
  · exact ⟨_, rfl⟩
  · obtain ⟨r, hr⟩ := hk soup (henv url soup hf)
    exact ⟨r, hr⟩

/-- C5 (amended): provided every meta tag the strategies index with
`['content']` actually carries its `content` attribute, `extract`
returns an `ExtractionResult` (never raises) for every URL and remote
response, and so does `extract_with_retry` for every
`max_retries ≥ 1`.  Without that proviso the contract fails: a fetched
page containing a matched but attribute-less meta tag makes `extract`
raise `KeyError` (see the counterexample). -/
theorem extract_total_on_well_attributed (env : Env) (henv : envWellAttributed env)
    (url : Str) :
    (∃ r, (extract env url).1 = .ok r) ∧
    (∀ m : Int, 1 ≤ m → ∃ r n, extract_with_retry env url m = (.ok r, n)) := by
  have hex : ∃ r, (extract env url).1 = .ok r := by
    by_cases hv : is_valid_url url = true
    · simp only [extract, hv, Bool.not_true, Bool.false_eq_true, if_false]
      split_ifs with p1 p2 p3 p4 p5 p6 p7 p8
      · exact extractInstagram_ok env henv url
      · exact extractTwitter_ok env henv url
      · exact withFetch_ok env url _ _
          (fun soup wa => ogFromSoup_ok _ _ _ url soup wa) henv
      · exact extractYoutube_ok env henv url
      · exact withFetch_ok env url _ _
          (fun soup wa => ogFromSoup_ok _ _ _ url soup wa) henv
      · exact withFetch_ok env url _ _
          (fun soup wa => ogFromSoup_ok _ _ _ url soup wa) henv
      · exact withFetch_ok env url _ _
          (fun soup wa => ogFromSoup_ok _ _ _ url soup wa) henv
      · exact withFetch_ok env url _ _
          (fun soup wa => ogFromSoup_ok _ _ _ url soup wa) henv
      · exact extractGeneric_ok env henv url
    · have hvf : is_valid_url url = false := by
        revert hv; cases is_valid_url url <;> simp
      simp only [extract, hvf, Bool.not_false, if_true]
      exact ⟨_, rfl⟩
  refine ⟨hex, ?_⟩
  intro m hm
  obtain ⟨r0, hr0⟩ := hex
  have h := retryGo_ok (fun _ => (extract env url).1) (fun _ => ⟨r0, hr0⟩)
    m.toNat 0 (by omega)
  simpa [extract_with_retry] using h

/-- C5 witness: in an environment where every fetch fails (hence
trivially well-attributed), the Instagram URL yields a returned result
from both entry points. -/
theorem extract_total_on_well_attributed_witness :
    (∃ r, (extract envNone ("https://instagram.com/p/x".toList)).1 = .ok r) ∧
    (∃ r n, extract_with_retry envNone ("https://instagram.com/p/x".toList) 3 =
      (.ok r, n)) := by
  have henv : envWellAttributed envNone := by
    intro url s h
    simp [envNone] at h
  have h := extract_total_on_well_attributed envNone henv
    ("https://instagram.com/p/x".toList)
  exact ⟨h.1, h.2 3 (by omega)⟩

/-- C5 counterexample: a fetched Instagram page whose
`og:description` meta tag lacks its `content` attribute makes
`extract` raise `KeyError` (the `caption['content']` access on line
121) instead of returning an `ExtractionResult`, refuting the claim's
"for every remote response (including malformed documents) … never
raise an exception past the subsystem boundary". -/
theorem extract_keyerror_counterexample :
    (extract envNoContent ("https://instagram.com/p/x".toList)).1 =
      Except.error PyExc.keyError := by decide

/-! ## Record invariant (C1) -/

theorem resultInvariant_fail {msg : Str} (h : msg ≠ []) :
    resultInvariant (failResult msg) := by
  constructor
  · intro _
    exact ⟨msg, rfl, h⟩
  · intro hs
    exact Bool.noConfusion hs

theorem twitterFromOEmbed_inv (url : Str) (oe : OEmbed) (hurl : url ≠ []) :
    resultInvariant (twitterFromOEmbed url oe) :=
  ⟨fun hs => Bool.noConfusion hs,
   fun _ => ⟨⟨_, rfl, by decide⟩, ⟨url, rfl, hurl⟩, ⟨_, rfl, by decide⟩,
     ⟨_, rfl⟩, ⟨_, rfl⟩⟩⟩

theorem twitterFallback_inv (url : Str) (hurl : url ≠ []) :
    resultInvariant (twitterFallback url) :=
  ⟨fun hs => Bool.noConfusion hs,
   fun _ => ⟨⟨_, rfl, by decide⟩, ⟨url, rfl, hurl⟩, ⟨_, rfl, by decide⟩,
     ⟨_, rfl⟩, ⟨_, rfl⟩⟩⟩

theorem instagramFromSoup_inv (url : Str) (soup : Soup) (r : ExtractionResult)
    (hurl : url ≠ []) (h : instagramFromSoup url soup = .ok r) :
    resultInvariant r := by
  unfold instagramFromSoup at h
  cases h1 : contentOrElse soup.ogDescription [] with
  | error e => rw [h1] at h; cases h
  | ok c0 =>
    rw [h1] at h
    cases h2 : contentOrElse soup.ogImage [] with
    | error e => rw [h2] at h; cases h
    | ok i0 =>
      rw [h2] at h
      dsimp only at h
      injection h with h
      subst h
      exact ⟨fun hs => Bool.noConfusion hs,
        fun _ => ⟨⟨_, rfl, by decide⟩, ⟨url, rfl, hurl⟩, ⟨_, rfl, by decide⟩,
          ⟨_, rfl⟩, ⟨_, rfl⟩⟩⟩

theorem ogFromSoup_inv (p dt mt url : Str) (soup : Soup) (r : ExtractionResult)
    (hurl : url ≠ []) (hp : p ≠ []) (hmt : mt ≠ [])
    (h : ogFromSoup p dt mt url soup = .ok r) : resultInvariant r := by
  unfold ogFromSoup at h
  cases h1 : contentOrElse soup.ogTitle dt with
  | error e => rw [h1] at h; cases h
  | ok t0 =>
    rw [h1] at h
    cases h2 : contentOrElse soup.ogDescription [] with
    | error e => rw [h2] at h; cases h
    | ok c0 =>
      rw [h2] at h
      cases h3 : contentOrElse soup.ogImage [] with
      | error e => rw [h3] at h; cases h
      | ok i0 =>
        rw [h3] at h
        dsimp only at h
        injection h with h
        subst h
        exact ⟨fun hs => Bool.noConfusion hs,
          fun _ => ⟨⟨p, rfl, hp⟩, ⟨url, rfl, hurl⟩, ⟨mt, rfl, hmt⟩,
            ⟨_, rfl⟩, ⟨_, rfl⟩⟩⟩

theorem youtubeFromSoup_inv (url : Str) (soup : Soup) (r : ExtractionResult)
    (hurl : url ≠ []) (h : youtubeFromSoup url soup = .ok r) :
    resultInvariant r := by
  unfold youtubeFromSoup at h
  cases h1 : contentOrElse soup.ogTitle ("YouTube Video".toList) with
  | error e => rw [h1] at h; cases h
  | ok t0 =>
    rw [h1] at h
    cases h2 : contentOrElse soup.ogDescription [] with
    | error e => rw [h2] at h; cases h
    | ok c0 =>
      rw [h2] at h
      dsimp only at h
      by_cases hv : (parseVideoId url).isEmpty
      · rw [if_pos hv] at h
        cases h3 : contentOrElse soup.ogImage [] with
        | error e => rw [h3] at h; cases h
        | ok i0 =>
          rw [h3] at h
          injection h with h
          subst h
          exact ⟨fun hs => Bool.noConfusion hs,
            fun _ => ⟨⟨_, rfl, by decide⟩, ⟨url, rfl, hurl⟩, ⟨_, rfl, by decide⟩,
              ⟨_, rfl⟩, ⟨_, rfl⟩⟩⟩
      · rw [if_neg hv] at h
        injection h with h
        subst h
        exact ⟨fun hs => Bool.noConfusion hs,
          fun _ => ⟨⟨_, rfl, by decide⟩, ⟨url, rfl, hurl⟩, ⟨_, rfl, by decide⟩,
            ⟨_, rfl⟩, ⟨_, rfl⟩⟩⟩

theorem twitterFromSoup_inv (url : Str) (soup : Soup) (r : ExtractionResult)
    (hurl : url ≠ []) (h : twitterFromSoup url soup = .ok (some r)) :
    resultInvariant r := by
  unfold twitterFromSoup at h
  dsimp only at h
  split at h
  · simp at h
  · split at h
    · simp at h
    · split at h
      · simp at h
      · simp only [Except.ok.injEq, Option.some.injEq] at h
        subst h
        exact ⟨fun hs => Bool.noConfusion hs,
          fun _ => ⟨⟨_, rfl, by decide⟩, ⟨url, rfl, hurl⟩, ⟨_, rfl, by decide⟩,
            ⟨_, rfl⟩, ⟨_, rfl⟩⟩⟩

theorem genericFromSoup_inv (url : Str) (soup : Soup) (r : ExtractionResult)
    (hurl : url ≠ []) (h : genericFromSoup url soup = .ok r) :
    resultInvariant r := by
  unfold genericFromSoup at h
  dsimp only at h
  split at h
  · simp at h
  · split at h
    · simp at h
    · split at h
      · simp at h
      · simp only [Except.ok.injEq] at h
        subst h
        exact ⟨fun hs => Bool.noConfusion hs,
          fun _ => ⟨⟨_, rfl, by decide⟩, ⟨url, rfl, hurl⟩, ⟨_, rfl, by decide⟩,
            ⟨_, rfl⟩, ⟨_, rfl⟩⟩⟩

theorem extractInstagram_inv (env : Env) (url : Str) (r : ExtractionResult)
    (hurl : url ≠ []) (h : (extractInstagram env url).1 = .ok r) :
    resultInvariant r := by
  unfold extractInstagram at h
  rcases hf : env.fetch url with _ | soup <;> rw [hf] at h <;> dsimp only at h
  · injection h with h
    subst h
    exact resultInvariant_fail (by decide)
  · exact instagramFromSoup_inv url soup r hurl h

theorem extractYoutube_inv (env : Env) (url : Str) (r : ExtractionResult)
    (hurl : url ≠ []) (h : (extractYoutube env url).1 = .ok r) :
    resultInvariant r := by
  unfold extractYoutube at h
  rcases hf : env.fetch url with _ | soup <;> rw [hf] at h <;> dsimp only at h
  · injection h with h
    subst h
    exact resultInvariant_fail (by decide)
  · exact youtubeFromSoup_inv url soup r hurl h

theorem extractGeneric_inv (env : Env) (url : Str) (r : ExtractionResult)
    (hurl : url ≠ []) (h : (extractGeneric env url).1 = .ok r) :
    resultInvariant r := by
  unfold extractGeneric at h
  rcases hf : env.fetch url with _ | soup <;> rw [hf] at h <;> dsimp only at h
  · injection h with h
    subst h
    exact resultInvariant_fail (by decide)
  · exact genericFromSoup_inv url soup r hurl h

theorem extractTwitter_inv (env : Env) (url : Str) (r : ExtractionResult)
    (hurl : url ≠ []) (h : (extractTwitter env url).1 = .ok r) :
    resultInvariant r := by
  unfold extractTwitter at h
  rcases ho : env.oembed url with _ | oe <;> rw [ho] at h <;> dsimp only at h
  · rcases hf : env.fetch url with _ | soup <;> rw [hf] at h <;> dsimp only at h
    · injection h with h
      subst h
      exact twitterFallback_inv url hurl
    · cases hts : twitterFromSoup url soup with
      | error e => rw [hts] at h; cases h
      | ok o =>
        rw [hts] at h
        rcases o with _ | r0
        · dsimp only at h
          injection h with h
          subst h
          exact twitterFallback_inv url hurl
        · dsimp only at h
          injection h with h
          subst h
          exact twitterFromSoup_inv url soup _ hurl hts
  · injection h with h
    subst h
    exact twitterFromOEmbed_inv url oe hurl

theorem withFetch_inv (env : Env) (url errMsg : Str)
    (k : Soup → Except PyExc ExtractionResult) (r : ExtractionResult)
    (hmsg : errMsg ≠ [])
    (hk : ∀ soup r0, k soup = .ok r0 → resultInvariant r0)
    (h : (withFetch env url errMsg k).1 = .ok r) : resultInvariant r := by
  unfold withFetch at h
  rcases hf : env.fetch url with _ | soup <;> rw [hf] at h <;> dsimp only at h
  · injection h with h
    subst h
    exact resultInvariant_fail hmsg
  · exact hk soup r h

theorem is_valid_url_ne_nil {url : Str} (h : is_valid_url url = true) : url ≠ [] := by
  intro hnil
  subst hnil
  exact absurd h (by decide)

/-- C1: every `ExtractionResult` returned by `extract` satisfies the
record invariant: on failure the error is a non-empty string; on
success `platform`, `url` and `media_type` are populated (non-empty)
and `title` and `caption` are present strings (possibly empty). -/
theorem extract_result_invariant (env : Env) (url : Str) (r : ExtractionResult)
    (h : (extract env url).1 = .ok r) : resultInvariant r := by
  by_cases hv : is_valid_url url = true
  · have hurl : url ≠ [] := is_valid_url_ne_nil hv
    simp only [extract, hv, Bool.not_true, Bool.false_eq_true, if_false] at h
    split_ifs at h with p1 p2 p3 p4 p5 p6 p7 p8
    · exact extractInstagram_inv env url r hurl h
    · exact extractTwitter_inv env url r hurl h
    · exact withFetch_inv env url _ _ r (by decide)
        (fun soup r0 h0 => ogFromSoup_inv _ _ _ url soup r0 hurl (by decide) (by decide) h0) h
    · exact extractYoutube_inv env url r hurl h
    · exact withFetch_inv env url _ _ r (by decide)
        (fun soup r0 h0 => ogFromSoup_inv _ _ _ url soup r0 hurl (by decide) (by decide) h0) h
    · exact withFetch_inv env url _ _ r (by decide)
        (fun soup r0 h0 => ogFromSoup_inv _ _ _ url soup r0 hurl (by decide) (by decide) h0) h
    · exact withFetch_inv env url _ _ r (by decide)
        (fun soup r0 h0 => ogFromSoup_inv _ _ _ url soup r0 hurl (by decide) (by decide) h0) h
    · exact withFetch_inv env url _ _ r (by decide)
        (fun soup r0 h0 => ogFromSoup_inv _ _ _ url soup r0 hurl (by decide) (by decide) h0) h
    · exact extractGeneric_inv env url r hurl h
  · have hvf : is_valid_url url = false := by
      revert hv; cases is_valid_url url <;> simp
    simp only [extract, hvf, Bool.not_false, if_true] at h
    replace h := Except.ok.inj h
    subst h
    exact resultInvariant_fail (by decide)

/-- C1 witness: the result returned for an Instagram URL whose fetch
fails satisfies the invariant. -/
theorem extract_result_invariant_witness :
    (extract envNone ("https://instagram.com/p/x".toList)).1 =
      .ok (failResult ("Failed to fetch Instagram post".toList)) ∧
    resultInvariant (failResult ("Failed to fetch Instagram post".toList)) :=
  ⟨by decide,
   extract_result_invariant envNone ("https://instagram.com/p/x".toList) _ (by decide)⟩

/-! ## Normalizer idempotence (C7): marker substitutions -/

theorem subMarkerGo_subset (m : Char) {c : Char} :
    ∀ (l : Str) (b : Bool), c ∈ subMarkerGo m l b → c ∈ l := by
  intro l
  induction l with
  | nil => intro b h; simp [subMarkerGo] at h
  | cons c0 rest IH =>
    intro b h
    cases b with
    | false =>
      simp only [subMarkerGo] at h
      split at h
      · exact List.mem_cons_of_mem _ (IH true h)
      · rcases List.mem_cons.mp h with rfl | h'
        · exact List.mem_cons_self _ _
        · exact List.mem_cons_of_mem _ (IH false h')
    | true =>
      simp only [subMarkerGo] at h
      split at h
      · exact List.mem_cons_of_mem _ (IH true h)
      · split at h
        · exact List.mem_cons_of_mem _ (IH true h)
        · rcases List.mem_cons.mp h with rfl | h'
          · exact List.mem_cons_self _ _
          · exact List.mem_cons_of_mem _ (IH false h')

theorem subMarker_eq_self (m : Char) :
    ∀ l : Str, m ∉ l → subMarker m l = l := by
  intro l
  induction l with
  | nil => intro _; rfl
  | cons c0 rest IH =>
    intro h
    have hc0 : (c0 == m) = false := by
      simp only [beq_eq_false_iff_ne]
      intro heq
      subst heq
      exact h (List.mem_cons_self _ _)
    show subMarkerGo m (c0 :: rest) false = c0 :: rest
    simp only [subMarkerGo, hc0, Bool.false_and, Bool.false_eq_true, if_false]
    have h2 := IH (fun hm => h (List.mem_cons_of_mem _ hm))
    rw [subMarker] at h2
    rw [h2]

theorem stripEmoji_subset {c : Char} {l : Str} (h : c ∈ stripEmoji l) : c ∈ l :=
  (List.mem_filter.mp h).1

theorem stripEmoji_not_emoji {c : Char} {l : Str} (h : c ∈ stripEmoji l) :
    isEmojiChar c = false := by
  have h2 := (List.mem_filter.mp h).2
  simpa using h2

theorem stripEmoji_eq_self {l : Str} (h : ∀ c ∈ l, isEmojiChar c = false) :
    stripEmoji l = l := by
  unfold stripEmoji
  rw [List.filter_eq_self]
  intro a ha
  simp [h a ha]

/-! ## Normalizer idempotence (C7): dot collapse -/

theorem subDotsGo_subset {c : Char} :
    ∀ (l : Str) (b : Bool), c ∈ subDotsGo l b → c ∈ l := by
  intro l
  induction l with
  | nil => intro b h; simp [subDotsGo] at h
  | cons c0 rest IH =>
    intro b h
    cases b with
    | false =>
      simp only [subDotsGo] at h
      split at h
      · exact List.mem_cons_of_mem _ (IH true h)
      · rcases List.mem_cons.mp h with rfl | h'
        · exact List.mem_cons_self _ _
        · exact List.mem_cons_of_mem _ (IH false h')
    | true =>
      simp only [subDotsGo] at h
      split at h
      · exact List.mem_cons_of_mem _ (IH true h)
      · rcases List.mem_cons.mp h with rfl | h'
        · exact List.mem_cons_self _ _
        · exact List.mem_cons_of_mem _ (IH false h')

theorem noDD_tail {c : Char} {l : Str} (h : noDD (c :: l) = true) : noDD l = true := by
  simp only [noDD, Bool.and_eq_true] at h
  exact h.2

theorem noDD_cons_of_ne {c : Char} {l : Str} (hc : (c == '.') = false)
    (hl : noDD l = true) : noDD (c :: l) = true := by
  cases l with
  | nil => rfl
  | cons d rest =>
    rw [show noDD (c :: d :: rest) = (!(c == '.' && d == '.') && noDD (d :: rest)) from rfl,
      hc]
    simp [hl]

theorem noDD_cons_dot {l : Str} (hl : noDD l = true)
    (hh : ∀ d, l.head? = some d → (d == '.') = false) :
    noDD ('.' :: l) = true := by
  cases l with
  | nil => rfl
  | cons d rest =>
    have hd := hh d rfl
    rw [show noDD ('.' :: d :: rest) = (!('.' == '.' && d == '.') && noDD (d :: rest)) from
      rfl, hd]
    simp [hl]

theorem subDotsGo_false_head {l : Str}
    (hh : ∀ d, l.head? = some d → (d == '.') = false) :
    ∀ d, (subDotsGo l false).head? = some d → (d == '.') = false := by
  cases l with
  | nil => intro d h; simp [subDotsGo] at h
  | cons c rest =>
    intro d h
    have hc := hh c rfl
    simp only [subDotsGo, hc, Bool.false_and, Bool.false_eq_true, if_false] at h
    simp only [List.head?_cons, Option.some.injEq] at h
    subst h
    exact hc

theorem noDD_subDotsGo :
    ∀ l : Str, noDD (subDotsGo l false) = true ∧ noDD (subDotsGo l true) = true := by
  intro l
  induction l with
  | nil => exact ⟨rfl, rfl⟩
  | cons c rest IH =>
    constructor
    · simp only [subDotsGo]
      split
      · exact IH.2
      · next hcond =>
          by_cases hc : (c == '.') = true
          · have hc' : c = '.' := by simpa using hc
            subst hc'
            apply noDD_cons_dot IH.1
            apply subDotsGo_false_head
            intro d hd
            cases rest with
            | nil => simp at hd
            | cons r0 rs =>
              simp only [List.head?_cons, Option.some.injEq] at hd
              subst hd
              cases hr0 : (r0 == '.') with
              | false => rfl
              | true =>
                exfalso
                apply hcond
                simp [hr0]
          · exact noDD_cons_of_ne (by simpa using hc) IH.1
    · simp only [subDotsGo]
      split
      · exact IH.2
      · next hc => exact noDD_cons_of_ne (by simpa using hc) IH.1

theorem subDotsGo_eq_self : ∀ l : Str, noDD l = true → subDotsGo l false = l := by
  intro l
  induction l with
  | nil => intro _; rfl
  | cons c rest IH =>
    intro h
    have htail := noDD_tail h
    simp only [subDotsGo]
    split
    · next hcond =>
        exfalso
        cases rest with
        | nil => simp at hcond
        | cons d rs =>
          have hc : (c == '.') = true := (Bool.and_eq_true _ _).mp hcond |>.1
          have hd : (d == '.') = true := (Bool.and_eq_true _ _).mp hcond |>.2
          have hguard : noDD (c :: d :: rs) = (!(c == '.' && d == '.') && noDD (d :: rs)) :=
            rfl
          rw [hguard, hc, hd] at h
          simp at h
    · rw [IH htail]

/-! ## Normalizer idempotence (C7): whitespace collapse -/

theorem nwR_subset {c : Char} : ∀ l : Str, c ∈ nwR l → c ∈ l ∨ c = ' ' := by
  intro l
  induction l with
  | nil => intro h; simp [nwR] at h
  | cons c0 rest IH =>
    intro h
    simp only [nwR] at h
    split at h
    · split at h
      · simp at h
      · next d r heq =>
          split at h
          · rcases IH (heq ▸ h) with h' | h'
            · exact Or.inl (List.mem_cons_of_mem _ h')
            · exact Or.inr h'
          · rcases List.mem_cons.mp h with rfl | h'
            · exact Or.inr rfl
            · rcases IH (heq ▸ h') with h'' | h''
              · exact Or.inl (List.mem_cons_of_mem _ h'')
              · exact Or.inr h''
    · rcases List.mem_cons.mp h with rfl | h'
      · exact Or.inl (List.mem_cons_self _ _)
      · rcases IH h' with h'' | h''
        · exact Or.inl (List.mem_cons_of_mem _ h'')
        · exact Or.inr h''

theorem nwR_tidy_headOk : ∀ l : Str, tidy (nwR l) = true ∧ headOk (nwR l) = true := by
  intro l
  induction l with
  | nil => exact ⟨rfl, rfl⟩
  | cons c rest IH =>
    obtain ⟨ih1, ih2⟩ := IH
    by_cases hc : isSpaceChar c = true
    · simp only [nwR]
      rw [if_pos hc]
      cases hr : nwR rest with
      | nil => exact ⟨rfl, rfl⟩
      | cons d r =>
        rw [hr] at ih1 ih2
        dsimp only
        by_cases hd : (d == ' ') = true
        · rw [if_pos hd]
          exact ⟨ih1, by simp [headOk, hd]⟩
        · rw [if_neg hd]
          have hd' : (d == ' ') = false := by simpa using hd
          have hdn : isSpaceChar d = false := by
            simp only [headOk, hd', Bool.false_or, Bool.not_eq_true'] at ih2
            exact ih2
          refine ⟨?_, by simp [headOk]⟩
          rw [show tidy (' ' :: d :: r) =
            (if isSpaceChar ' ' then
              (' ' == ' ' && !isSpaceChar d && tidy (d :: r)) else tidy (d :: r)) from rfl]
          rw [if_pos (by decide : isSpaceChar ' ' = true)]
          simp [hdn, ih1]
    · have hcf : isSpaceChar c = false := by simpa using hc
      simp only [nwR]
      rw [if_neg hc]
      refine ⟨?_, by simp [headOk, hcf]⟩
      show tidy (c :: nwR rest) = true
      simp only [tidy, hcf, Bool.false_eq_true, if_false]
      exact ih1

theorem nwR_eq_self : ∀ l : Str, tidy l = true → nwR l = l := by
  intro l
  induction l with
  | nil => intro _; rfl
  | cons c rest IH =>
    intro h
    by_cases hc : isSpaceChar c = true
    · simp only [tidy, hc, if_true, Bool.and_eq_true] at h
      obtain ⟨⟨hce, hm⟩, ht⟩ := h
      cases rest with
      | nil => simp at hm
      | cons d rs =>
        have hd : isSpaceChar d = false := by simpa using hm
        have hde : (d == ' ') = false := by
          cases hde : (d == ' ') with
          | false => rfl
          | true =>
            have : d = ' ' := by simpa using hde
            rw [this] at hd
            exact absurd hd (by decide)
        have hce' : c = ' ' := by simpa using hce
        rw [nwR, if_pos hc, IH ht]
        simp [hde, hce']
    · have hcf : isSpaceChar c = false := by simpa using hc
      simp only [tidy, hcf, Bool.false_eq_true, if_false] at h
      rw [nwR, if_neg hc, IH h]

theorem nwR_head {l : Str} {ch : Char} (h : (nwR l).head? = some ch) :
    ch = ' ' ∨ l.head? = some ch := by
  cases l with
  | nil => simp [nwR] at h
  | cons c rest =>
    simp only [nwR] at h
    split at h
    · split at h
      · simp at h
      · split at h
        · next hd =>
            left
            simp only [List.head?_cons, Option.some.injEq] at h
            rw [← h]
            simpa using hd
        · left
          simp only [List.head?_cons, Option.some.injEq] at h
          exact h.symm
    · right
      simp only [List.head?_cons, Option.some.injEq] at h
      rw [List.head?_cons, h]

theorem noDD_nwR : ∀ l : Str, noDD l = true → noDD (nwR l) = true := by
  intro l
  induction l with
  | nil => intro _; rfl
  | cons c rest IH =>
    intro h
    have ihr := IH (noDD_tail h)
    by_cases hc : isSpaceChar c = true
    · simp only [nwR]
      rw [if_pos hc]
      cases hr : nwR rest with
      | nil => rfl
      | cons d r =>
        rw [hr] at ihr
        dsimp only
        by_cases hd : (d == ' ') = true
        · rw [if_pos hd]
          exact ihr
        · rw [if_neg hd]
          exact noDD_cons_of_ne (by decide) ihr
    · simp only [nwR]
      rw [if_neg hc]
      by_cases hcd : (c == '.') = true
      · have hc' : c = '.' := by simpa using hcd
        subst hc'
        apply noDD_cons_dot ihr
        intro d hd
        rcases nwR_head hd with hsp | hhead
        · rw [hsp]; decide
        · cases rest with
          | nil => simp at hhead
          | cons r0 rs =>
            simp only [List.head?_cons, Option.some.injEq] at hhead
            have hguard :
                noDD ('.' :: r0 :: rs) = (!('.' == '.' && r0 == '.') && noDD (r0 :: rs)) :=
              rfl
            rw [hguard, Bool.and_eq_true] at h
            have h1 := h.1
            simp only [Bool.not_eq_eq_eq_not, Bool.not_true, Bool.and_eq_false_iff] at h1
            rcases h1 with h' | h'
            · exact absurd h' (by decide)
            · rw [← hhead]
              exact h'
      · exact noDD_cons_of_ne (by simpa using hcd) ihr

theorem noDD_dropWhile (p : Char → Bool) :
    ∀ l : Str, noDD l = true → noDD (l.dropWhile p) = true := by
  intro l
  induction l with
  | nil => intro _; rfl
  | cons c rest IH =>
    intro h
    rw [List.dropWhile_cons]
    split
    · exact IH (noDD_tail h)
    · exact h

theorem tidy_dropWhile :
    ∀ l : Str, tidy l = true → tidy (l.dropWhile isSpaceChar) = true := by
  intro l
  cases l with
  | nil => intro _; rfl
  | cons c rest =>
    intro h
    rw [List.dropWhile_cons]
    split
    · next hc =>
        simp only [tidy, hc, if_true, Bool.and_eq_true] at h
        obtain ⟨⟨hce, hm⟩, ht⟩ := h
        cases rest with
        | nil => simp at hm
        | cons d rs =>
          have hd : isSpaceChar d = false := by simpa using hm
          rw [List.dropWhile_cons, if_neg (by simp [hd])]
          exact ht
    · exact h

theorem dropWhile_head_not (p : Char → Bool) :
    ∀ (l : Str) (c : Char), (l.dropWhile p).head? = some c → p c = false := by
  intro l
  induction l with
  | nil => intro c h; simp at h
  | cons c0 rest IH =>
    intro c h
    rw [List.dropWhile_cons] at h
    split at h
    · exact IH c h
    · next hc =>
        simp only [List.head?_cons, Option.some.injEq] at h
        subst h
        simpa using hc

theorem normWs_idem (l : Str) : normWs (normWs l) = normWs l := by
  have ht : tidy (normWs l) = true := tidy_dropWhile _ (nwR_tidy_headOk l).1
  have hn : nwR (normWs l) = normWs l := nwR_eq_self _ ht
  calc normWs (normWs l) = (nwR (normWs l)).dropWhile isSpaceChar := rfl
    _ = (normWs l).dropWhile isSpaceChar := by rw [hn]
    _ = normWs l := by
        rcases hnl : normWs l with _ | ⟨c, rest⟩
        · rfl
        · have hns : isSpaceChar c = false := by
            apply dropWhile_head_not isSpaceChar (nwR l) c
            show (normWs l).head? = some c
            rw [hnl, List.head?_cons]
          rw [List.dropWhile_cons, if_neg (by simp [hns])]

/-! ## Normalizer idempotence (C7): assembly -/

theorem strip_social_noise_subset {c : Char} {l : Str}
    (h : c ∈ strip_social_noise l) : c ∈ l ∨ c = ' ' := by
  unfold strip_social_noise normWs at h
  have h1 := (List.dropWhile_sublist isSpaceChar).subset h
  rcases nwR_subset _ h1 with h2 | h2
  · have h3 := subDotsGo_subset _ _ h2
    have h4 := stripEmoji_subset h3
    have h5 := subMarkerGo_subset '@' _ _ h4
    have h6 := subMarkerGo_subset '#' _ _ h5
    exact Or.inl h6
  · exact Or.inr h2

theorem strip_social_noise_no_emoji {c : Char} {l : Str}
    (h : c ∈ strip_social_noise l) : isEmojiChar c = false := by
  unfold strip_social_noise normWs at h
  have h1 := (List.dropWhile_sublist isSpaceChar).subset h
  rcases nwR_subset _ h1 with h2 | h2
  · exact stripEmoji_not_emoji (subDotsGo_subset _ _ h2)
  · rw [h2]
    decide

theorem strip_social_noise_noDD (l : Str) : noDD (strip_social_noise l) = true := by
  unfold strip_social_noise normWs
  apply noDD_dropWhile
  apply noDD_nwR
  exact (noDD_subDotsGo _).1

/-- C7 (amended): the cleaning pipeline `strip_social_noise` is
idempotent on every input containing no `#` and no `@` character.  In
general idempotence fails: deleting an emoji run or a `..` run can
juxtapose a `#` or `@` with following word characters, creating a new
hashtag/mention token that only a second pass removes — see the
counterexample. -/
theorem strip_social_noise_idempotent_no_marker (l : Str)
    (h1 : '#' ∉ l) (h2 : '@' ∉ l) :
    strip_social_noise (strip_social_noise l) = strip_social_noise l := by
  have hy1 : '#' ∉ strip_social_noise l := by
    intro hm
    rcases strip_social_noise_subset hm with hin | hsp
    · exact h1 hin
    · exact absurd hsp (by decide)
  have hy2 : '@' ∉ strip_social_noise l := by
    intro hm
    rcases strip_social_noise_subset hm with hin | hsp
    · exact h2 hin
    · exact absurd hsp (by decide)
  have e1 : subMarker '#' (strip_social_noise l) = strip_social_noise l :=
    subMarker_eq_self _ _ hy1
  have e2 : subMarker '@' (strip_social_noise l) = strip_social_noise l :=
    subMarker_eq_self _ _ hy2
  have e3 : stripEmoji (strip_social_noise l) = strip_social_noise l :=
    stripEmoji_eq_self (fun c hc => strip_social_noise_no_emoji hc)
  have e4 : subDots (strip_social_noise l) = strip_social_noise l := by
    unfold subDots
    exact subDotsGo_eq_self _ (strip_social_noise_noDD l)
  show normWs (subDots (stripEmoji (subMarker '@'
    (subMarker '#' (strip_social_noise l))))) = strip_social_noise l
  rw [e1, e2, e3, e4]
  exact normWs_idem (subDots (stripEmoji (subMarker '@' (subMarker '#' l))))

/-- C7 witness: a marker-free caption with an emoji, a dot run and
whitespace runs is a fixed point of the pipeline after one
application. -/
theorem strip_social_noise_idempotent_no_marker_witness :
    ('#' ∉ ("a day..  at the beach".toList)) ∧ ('@' ∉ ("a day..  at the beach".toList)) ∧
    strip_social_noise (strip_social_noise ("a day..  at the beach".toList)) =
      strip_social_noise ("a day..  at the beach".toList) :=
  ⟨by decide, by decide,
   strip_social_noise_idempotent_no_marker ("a day..  at the beach".toList)
     (by decide) (by decide)⟩

/-- C7 counterexample: on `"#..abc"` one application of
`strip_social_noise` yields `"#abc"` (the `#` survives because `..`
separates it from the word characters; the dot-collapse then glues
them together), while a second application deletes the newly formed
hashtag `#abc` entirely — so the pipeline is not idempotent. -/
theorem strip_social_noise_not_idempotent :
    strip_social_noise ("#..abc".toList) = "#abc".toList ∧
    strip_social_noise (strip_social_noise ("#..abc".toList)) = [] ∧
    strip_social_noise (strip_social_noise ("#..abc".toList)) ≠
      strip_social_noise ("#..abc".toList) :=
  ⟨by decide, by decide, by decide⟩

end SocialSaver
